import Mathlib

set_option maxHeartbeats 1000000
set_option maxRecDepth 65536

namespace CampaignAgent

/-!
Shallow embedding of the post-parsing and pipeline-orchestration logic of the
campaign-agent repository: app/agent/utils/post_parser.py,
app/agent/linkedin_agent.py, app/agent/utils/prompt_loader.py and
app/agent/resources/config.py.  Raw text is modelled as a list of
characters; the character classes of the Python regex (whitespace, digits)
and of str.strip are modelled over their ASCII ranges.
-/

/-- ASCII whitespace, modelling both the regex escape for whitespace and
the character set removed by str.strip. -/
def isWS (c : Char) : Bool :=
  c == ' ' || c == '\t' || c == '\n' || c == '\r' || c == '\x0b' || c == '\x0c'

/-- ASCII decimal digit, modelling the regex digit class. -/
def isDigitCh (c : Char) : Bool := decide ('0' ≤ c) && decide (c ≤ '9')

/-- ASCII lower-casing, modelling re.IGNORECASE literal comparison. -/
def lowerCh (c : Char) : Char :=
  if decide ('A' ≤ c) && decide (c ≤ 'Z') then Char.ofNat (c.toNat + 32) else c

/-- Left half of Python str.strip: drop leading whitespace. -/
def trimL (l : List Char) : List Char := l.dropWhile isWS

/-- Right half of Python str.strip: drop trailing whitespace. -/
def trimR (l : List Char) : List Char := (l.reverse.dropWhile isWS).reverse

/-- Python str.strip restricted to ASCII whitespace. -/
def pystrip (l : List Char) : List Char := trimR (trimL l)

/-! The configured split regex of config.py, alternation of a dashed
POST-number banner, a "Post n:"-style label and a "# Post n" heading,
compiled with re.IGNORECASE, is embedded as a direct matcher over
character lists.  No alternative can match the empty string and no
alternative requires backtracking, because every starred class is
disjoint from the token that follows it. -/

/-- Consume a literal, case-insensitively. -/
def eatLitCI : List Char → List Char → Option (List Char)
  | [], l => some l
  | _ :: _, [] => none
  | p :: ps, c :: cs => if lowerCh c == lowerCh p then eatLitCI ps cs else none

/-- Consume the star of the whitespace class, greedily. -/
def eatWSs (l : List Char) : List Char := l.dropWhile isWS

/-- Consume one-or-more digits, greedily. -/
def eatDigits1 : List Char → Option (List Char)
  | [] => none
  | c :: cs => if isDigitCh c then some (cs.dropWhile isDigitCh) else none

/-- Consume exactly one character drawn from a class. -/
def eatCharIn (ks : List Char) : List Char → Option (List Char)
  | [] => none
  | c :: cs => if ks.contains c then some cs else none

/-- First alternative: dashed POST banner. -/
def matchAlt1 (l : List Char) : Option (List Char) :=
  match eatLitCI ['-', '-', '-'] l with
  | none => none
  | some r1 =>
    match eatLitCI ['p', 'o', 's', 't'] (eatWSs r1) with
    | none => none
    | some r2 =>
      match eatDigits1 (eatWSs r2) with
      | none => none
      | some r3 => eatLitCI ['-', '-', '-'] (eatWSs r3)

/-- Second alternative: a "Post n" label closed by a colon or dash. -/
def matchAlt2 (l : List Char) : Option (List Char) :=
  match eatLitCI ['p', 'o', 's', 't'] l with
  | none => none
  | some r1 =>
    match eatDigits1 (eatWSs r1) with
    | none => none
    | some r2 => eatCharIn [':', '-'] r2

/-- Third alternative: a markdown "# Post n" heading. -/
def matchAlt3 (l : List Char) : Option (List Char) :=
  match eatCharIn ['#'] l with
  | none => none
  | some r1 =>
    match eatLitCI ['p', 'o', 's', 't'] (eatWSs r1) with
    | none => none
    | some r2 => eatDigits1 (eatWSs r2)

/-- One attempt of the whole alternation at the current position. -/
def matchMarker (l : List Char) : Option (List Char) :=
  match matchAlt1 l with
  | some r => some r
  | none =>
    match matchAlt2 l with
    | some r => some r
    | none => matchAlt3 l

/-! Consumption lemmas: every eater returns a suffix of its input, and a
successful alternative consumes at least one character. -/

theorem suffix_length_le {r l : List Char} (h : r.IsSuffix l) :
    r.length ≤ l.length := by
  obtain ⟨t, rfl⟩ := h
  simp

theorem dropWhile_isSuffix (p : Char → Bool) : ∀ l : List Char,
    (l.dropWhile p).IsSuffix l := by
  intro l
  induction l with
  | nil => exact ⟨[], rfl⟩
  | cons c cs ih =>
    by_cases h : p c
    · obtain ⟨t, ht⟩ := ih
      exact ⟨c :: t, by simp [List.dropWhile, h, ht]⟩
    · exact ⟨[], by simp [List.dropWhile, h]⟩

theorem eatLitCI_isSuffix : ∀ (p l r : List Char), eatLitCI p l = some r →
    r.IsSuffix l := by
  intro p
  induction p with
  | nil =>
    intro l r h
    simp [eatLitCI] at h
    exact h ▸ ⟨[], rfl⟩
  | cons a ps ih =>
    intro l r h
    cases l with
    | nil => simp [eatLitCI] at h
    | cons c cs =>
      simp only [eatLitCI] at h
      split at h
      · obtain ⟨t, ht⟩ := ih cs r h
        exact ⟨c :: t, by simp [ht]⟩
      · exact absurd h (by simp)

theorem eatLitCI_length : ∀ (p l r : List Char), eatLitCI p l = some r →
    r.length + p.length = l.length := by
  intro p
  induction p with
  | nil =>
    intro l r h
    simp [eatLitCI] at h
    simp [h]
  | cons a ps ih =>
    intro l r h
    cases l with
    | nil => simp [eatLitCI] at h
    | cons c cs =>
      simp only [eatLitCI] at h
      split at h
      · have := ih cs r h
        simp only [List.length_cons]
        omega
      · exact absurd h (by simp)

theorem eatDigits1_isSuffix (l r : List Char) (h : eatDigits1 l = some r) :
    r.IsSuffix l := by
  cases l with
  | nil => simp [eatDigits1] at h
  | cons c cs =>
    simp only [eatDigits1] at h
    split at h
    · obtain ⟨t, ht⟩ := dropWhile_isSuffix isDigitCh cs
      cases h
      exact ⟨c :: t, by simp [ht]⟩
    · exact absurd h (by simp)

theorem eatDigits1_length (l r : List Char) (h : eatDigits1 l = some r) :
    r.length < l.length := by
  cases l with
  | nil => simp [eatDigits1] at h
  | cons c cs =>
    simp only [eatDigits1] at h
    split at h
    · cases h
      have := suffix_length_le (dropWhile_isSuffix isDigitCh cs)
      simp only [List.length_cons]
      omega
    · exact absurd h (by simp)

theorem eatCharIn_isSuffix (ks l r : List Char) (h : eatCharIn ks l = some r) :
    r.IsSuffix l := by
  cases l with
  | nil => simp [eatCharIn] at h
  | cons c cs =>
    simp only [eatCharIn] at h
    split at h
    · cases h
      exact ⟨[c], rfl⟩
    · exact absurd h (by simp)

theorem eatCharIn_length (ks l r : List Char) (h : eatCharIn ks l = some r) :
    r.length < l.length := by
  have := suffix_length_le (eatCharIn_isSuffix ks l r h)
  cases l with
  | nil => simp [eatCharIn] at h
  | cons c cs =>
    simp only [eatCharIn] at h
    split at h
    · cases h
      simp
    · exact absurd h (by simp)

theorem matchAlt1_isSuffix (l r : List Char) (h : matchAlt1 l = some r) :
    r.IsSuffix l := by
  simp only [matchAlt1] at h
  split at h
  · exact absurd h (by simp)
  · rename_i r1 h1
    split at h
    · exact absurd h (by simp)
    · rename_i r2 h2
      split at h
      · exact absurd h (by simp)
      · rename_i r3 h3
        exact ((((eatLitCI_isSuffix _ _ _ h).trans
          (dropWhile_isSuffix isWS r3)).trans
          (eatDigits1_isSuffix _ _ h3)).trans
          (dropWhile_isSuffix isWS r2)).trans
          (((eatLitCI_isSuffix _ _ _ h2).trans
            (dropWhile_isSuffix isWS r1)).trans (eatLitCI_isSuffix _ _ _ h1))

theorem matchAlt1_length (l r : List Char) (h : matchAlt1 l = some r) :
    r.length < l.length := by
  simp only [matchAlt1] at h
  split at h
  · exact absurd h (by simp)
  · rename_i r1 h1
    split at h
    · exact absurd h (by simp)
    · rename_i r2 h2
      split at h
      · exact absurd h (by simp)
      · rename_i r3 h3
        have e1 := eatLitCI_length _ _ _ h1
        have s2 := suffix_length_le ((((eatLitCI_isSuffix _ _ _ h).trans
          (dropWhile_isSuffix isWS r3)).trans
          (eatDigits1_isSuffix _ _ h3)).trans
          (dropWhile_isSuffix isWS r2))
        have s3 := suffix_length_le ((eatLitCI_isSuffix _ _ _ h2).trans
          (dropWhile_isSuffix isWS r1))
        simp only [List.length_cons, List.length_nil] at e1
        omega

theorem matchAlt2_isSuffix (l r : List Char) (h : matchAlt2 l = some r) :
    r.IsSuffix l := by
  simp only [matchAlt2] at h
  split at h
  · exact absurd h (by simp)
  · rename_i r1 h1
    split at h
    · exact absurd h (by simp)
    · rename_i r2 h2
      exact ((eatCharIn_isSuffix _ _ _ h).trans
        ((eatDigits1_isSuffix _ _ h2).trans
          (dropWhile_isSuffix isWS r1))).trans (eatLitCI_isSuffix _ _ _ h1)

theorem matchAlt2_length (l r : List Char) (h : matchAlt2 l = some r) :
    r.length < l.length := by
  simp only [matchAlt2] at h
  split at h
  · exact absurd h (by simp)
  · rename_i r1 h1
    split at h
    · exact absurd h (by simp)
    · rename_i r2 h2
      have e1 := eatLitCI_length _ _ _ h1
      have s2 := suffix_length_le ((eatCharIn_isSuffix _ _ _ h).trans
        ((eatDigits1_isSuffix _ _ h2).trans (dropWhile_isSuffix isWS r1)))
      simp only [List.length_cons, List.length_nil] at e1
      omega

theorem matchAlt3_isSuffix (l r : List Char) (h : matchAlt3 l = some r) :
    r.IsSuffix l := by
  simp only [matchAlt3] at h
  split at h
  · exact absurd h (by simp)
  · rename_i r1 h1
    split at h
    · exact absurd h (by simp)
    · rename_i r2 h2
      exact (((eatDigits1_isSuffix _ _ h).trans
        (dropWhile_isSuffix isWS r2)).trans
        ((eatLitCI_isSuffix _ _ _ h2).trans
          (dropWhile_isSuffix isWS r1))).trans (eatCharIn_isSuffix _ _ _ h1)

theorem matchAlt3_length (l r : List Char) (h : matchAlt3 l = some r) :
    r.length < l.length := by
  simp only [matchAlt3] at h
  split at h
  · exact absurd h (by simp)
  · rename_i r1 h1
    split at h
    · exact absurd h (by simp)
    · rename_i r2 h2
      have e1 := eatCharIn_length _ _ _ h1
      have s2 := suffix_length_le (((eatDigits1_isSuffix _ _ h).trans
        (dropWhile_isSuffix isWS r2)).trans
        ((eatLitCI_isSuffix _ _ _ h2).trans (dropWhile_isSuffix isWS r1)))
      omega

theorem matchMarker_isSuffix (l r : List Char) (h : matchMarker l = some r) :
    r.IsSuffix l := by
  simp only [matchMarker] at h
  split at h
  · cases h
    exact matchAlt1_isSuffix _ _ (by assumption)
  · split at h
    · cases h
      exact matchAlt2_isSuffix _ _ (by assumption)
    · exact matchAlt3_isSuffix _ _ h

theorem matchMarker_length (l r : List Char) (h : matchMarker l = some r) :
    r.length < l.length := by
  simp only [matchMarker] at h
  split at h
  · cases h
    exact matchAlt1_length _ _ (by assumption)
  · split at h
    · cases h
      exact matchAlt2_length _ _ (by assumption)
    · exact matchAlt3_length _ _ h

/-- The scan of re.split: advance one character at a time, cutting the
accumulated segment whenever the alternation matches at the current
position and resuming after the matched text.  Recursion is fuelled so
that the definition is structural and kernel-reducible; every step
consumes at least one character, so the zero-fuel default is unreachable
from splitMarkers, whose fuel exceeds the input length. -/
def splitAux : Nat → List Char → List Char → List (List Char)
  | 0, l, acc => [acc.reverse ++ l]
  | fuel + 1, l, acc =>
    match matchMarker l with
    | some rest => acc.reverse :: splitAux fuel rest []
    | none =>
      match l with
      | [] => [acc.reverse]
      | c :: cs => splitAux fuel cs (c :: acc)

/-- re.split of the configured post pattern, as used by both parsers. -/
def splitMarkers (l : List Char) : List (List Char) := splitAux (l.length + 1) l []

/-- The fuelled scan is fuel-independent whenever the fuel exceeds the
input length, so splitMarkers never reaches the zero-fuel default. -/
theorem splitAux_fuel_eq : ∀ (fuel fuel2 : Nat) (l acc : List Char),
    l.length < fuel → l.length < fuel2 →
    splitAux fuel l acc = splitAux fuel2 l acc := by
  intro fuel
  induction fuel with
  | zero => intro fuel2 l acc h; omega
  | succ f ih =>
    intro fuel2 l acc h h2
    cases fuel2 with
    | zero => omega
    | succ f2 =>
      rcases hm : matchMarker l with _ | rest
      · cases l with
        | nil => simp [splitAux, hm]
        | cons c cs =>
          simp only [splitAux, hm]
          exact ih f2 cs (c :: acc) (by simp at h; omega) (by simp at h2; omega)
      · have hlt := matchMarker_length l rest hm
        simp only [splitAux, hm]
        rw [ih f2 rest [] (by omega) (by omega)]

/-! Data model (utils/models.py) and configuration (resources/config.py). -/

/-- ParsedPost of utils/models.py; the agent-side parser of
linkedin_agent.py builds dictionaries of exactly the same shape, so the
one structure serves both parsers. -/
structure ParsedPost where
  id : Nat
  style : String
  content : List Char
deriving DecidableEq, Repr

/-- PostConfig.post_styles. -/
def postStyles : List String := ["Storytelling", "Data-Driven", "Thought Leadership"]

/-- PostConfig.min_post_length. -/
def minPostLength : Nat := 50

/-- PostConfig.max_posts. -/
def maxPosts : Nat := 3

namespace PostParser

/-- PostParser._get_style_for_index. -/
def getStyleForIndex (index : Nat) : String :=
  if h : index < postStyles.length then postStyles.get ⟨index, h⟩
  else "Variation " ++ toString (index + 1)

/-- PostParser._fallback_parse. -/
def fallbackParse (rawPosts : List Char) : List ParsedPost :=
  let content := pystrip rawPosts
  if content = [] then []
  else [⟨1, "Generated", content⟩]

/-- The accepting loop of PostParser.parse: trim each segment, skip the
empty and the under-length ones, number accepted posts densely, and stop
as soon as max_posts posts have been accepted. -/
def parseLoop : List (List Char) → List ParsedPost → List ParsedPost
  | [], posts => posts
  | seg :: rest, posts =>
    let cleaned := pystrip seg
    if cleaned = [] ∨ cleaned.length < minPostLength then
      parseLoop rest posts
    else
      let posts2 := posts ++ [⟨posts.length + 1, getStyleForIndex posts.length, cleaned⟩]
      if maxPosts ≤ posts2.length then posts2 else parseLoop rest posts2

/-- PostParser.parse. -/
def parse (rawPosts : List Char) : List ParsedPost :=
  if rawPosts = [] ∨ pystrip rawPosts = [] then
    fallbackParse rawPosts
  else
    let posts := parseLoop (splitMarkers rawPosts) []
    if posts = [] then fallbackParse rawPosts else posts

end PostParser

namespace LinkedInPostAgent

/-- Suffix of a list after the first occurrence of a pattern, if any;
this is the second component of Python str.split with maxsplit one. -/
def afterFirst (m : List Char) : List Char → Option (List Char)
  | [] => none
  | c :: cs =>
    if m.isPrefixOf (c :: cs) then some ((c :: cs).drop m.length)
    else afterFirst m cs

/-- The initial marker loop of LinkedInPostAgent._parse_posts: for each
marker in order, if it occurs in the running text, keep only the text
after its first occurrence.  The loop's result is never read again. -/
def stripMarkersLoop : List (List Char) → List Char → List Char
  | [], cur => cur
  | m :: ms, cur =>
    match afterFirst m cur with
    | some rest => stripMarkersLoop ms rest
    | none => stripMarkersLoop ms cur

/-- The three literal markers of _parse_posts. -/
def postMarkers : List (List Char) :=
  [("--- POST 1 ---").data, ("--- POST 2 ---").data, ("--- POST 3 ---").data]

/-- The style expression of _parse_posts, keyed by the enumerate index of
the regex-split segment, not by the count of accepted posts. -/
def styleForSegIndex (i : Nat) : String :=
  if i < 3 then postStyles.getD (min i 2) ""
  else "Variation " ++ toString (i + 1)

/-- The filtering loop of _parse_posts: i is the enumerate index over all
split segments; a segment is accepted when its trimmed form is non-empty
and strictly longer than fifty characters, and it is stamped with id and
style derived from i. -/
def agentLoop : Nat → List (List Char) → List ParsedPost → List ParsedPost
  | _, [], posts => posts
  | i, seg :: rest, posts =>
    let cleaned := pystrip seg
    if cleaned ≠ [] ∧ 50 < cleaned.length then
      agentLoop (i + 1) rest (posts ++ [⟨i + 1, styleForSegIndex i, cleaned⟩])
    else
      agentLoop (i + 1) rest posts

/-- LinkedInPostAgent._parse_posts.  The stripMarkersLoop value is bound
exactly as in the source, where current_content is likewise dead after
the loop. -/
def parsePosts (rawPosts : List Char) : List ParsedPost :=
  let _currentContent := stripMarkersLoop postMarkers rawPosts
  let splitPosts := splitMarkers rawPosts
  let posts := agentLoop 0 splitPosts []
  let posts := if posts = [] then [⟨1, "Generated", pystrip rawPosts⟩] else posts
  posts.take 3

/-- The simplified form of _parse_posts named by claim C9: only the regex
split, the filtering loop, the single-post fallback and the truncation. -/
def parsePostsSimple (rawPosts : List Char) : List ParsedPost :=
  let splitPosts := splitMarkers rawPosts
  let posts := agentLoop 0 splitPosts []
  let posts := if posts = [] then [⟨1, "Generated", pystrip rawPosts⟩] else posts
  posts.take 3

end LinkedInPostAgent

/-! Orchestrator model (linkedin_agent.py).  The external collaborators
are abstracted into an oracle of call outcomes: the grounded
generate_content call of the google.genai client may succeed with text or
raise, and each of the four langchain chains may succeed with text or
raise.  Emoji prefixes of the progress messages are elided; everything
else of the message text is kept verbatim. -/

/-- Payload of result and complete events. -/
inductive EvData where
  | topics (t : String)
  | report (r : String)
  | gen (posts : List ParsedPost) (rawPosts : String)
  | empty
deriving DecidableEq, Repr

/-- The dictionary events yielded by generate_posts_stream. -/
inductive Event where
  | stage (stage msg : String)
  | progress (msg : String)
  | result (stage msg : String) (data : EvData)
  | complete (msg : String) (data : EvData)
  | error (msg : String)
deriving DecidableEq, Repr

/-- Instrumentation record of an external call that was issued. -/
inductive Call where
  | search (query : String)
  | llm (chain : String) (args : List String)
deriving DecidableEq, Repr

/-- Outcomes of the external services: gen is the grounded
generate_content call keyed by query, the others are the langchain
chain invocations keyed by their template variables. -/
structure Oracle where
  gen : String → Except String String
  llmTrending : String → String → Except String String
  llmResearch : String → String → String → Except String String
  llmGeneration : String → String → Except String String
  llmRefinement : String → String → Except String String

/-- LinkedInPostAgent._search_with_gemini: with no client configured a
fixed placeholder is returned without attempting the call; otherwise any
raised error is converted to a placeholder embedding its description. -/
def searchWithGemini (hasClient : Bool) (o : Oracle) (query : String) : String :=
  if !hasClient then "API key not configured. Unable to perform web search."
  else
    match o.gen query with
    | .ok t => t
    | .error e => "Search completed with limited results: " ++ e

/-- The trending search query template of generate_posts_stream. -/
def trendingQuery (field : String) : String :=
  "trending topics " ++ field ++ " 2024 2025 latest developments news"

/-- The context string handed to the trending chain inside the stream. -/
def trendingLLMCtx (o : Oracle) (field addCtx : String) : String :=
  addCtx ++ "\n\nRecent findings:\n" ++ searchWithGemini true o (trendingQuery field)

/-- Stage one of generate_posts_stream.  The stream body only runs when
the credential is configured, so the search client is invoked in its
configured state. -/
def trendingStage (o : Oracle) (field addCtx : String) :
    List Event × List Call × Except String String :=
  let evs : List Event :=
    [.stage "trending" "Identifying trending topics in your field...",
     .progress ("Searching for: " ++ trendingQuery field),
     .progress "Analyzing search results..."]
  let calls : List Call :=
    [.search (trendingQuery field), .llm "trending" [field, trendingLLMCtx o field addCtx]]
  match o.llmTrending field (trendingLLMCtx o field addCtx) with
  | .error e => (evs, calls, .error e)
  | .ok topics =>
    (evs ++ [.result "trending" "Trending topics identified!" (.topics topics)],
     calls, .ok topics)

/-- The three research query templates of generate_posts_stream, each
rendered with the field. -/
def researchQueries (field : String) : List String :=
  [field ++ " industry trends statistics 2024 2025",
   field ++ " expert opinions thought leadership",
   field ++ " case studies success stories"]

/-- One progress event is yielded per research query before the joined
search fan-out. -/
def researchProgressEvents (field : String) : List Event :=
  (researchQueries field).enum.map
    (fun p => Event.progress ("Research query " ++ toString (p.1 + 1) ++ "/3: " ++ p.2))

/-- The grounding text compiled after the fan-out: all results joined by
a blank line, in query declaration order. -/
def combinedResearch (o : Oracle) (field : String) : String :=
  String.intercalate "\n\n" ((researchQueries field).map (searchWithGemini true o))

/-- The context string handed to the research chain. -/
def researchLLMCtx (o : Oracle) (field addCtx : String) : String :=
  addCtx ++ "\n\nResearch findings:\n" ++ combinedResearch o field

/-- The focal topic of the research chain: the first line of the trending
output, or the field when that output is empty. -/
def researchTopic (field topics : String) : String :=
  if topics == "" then field else (topics.splitOn "\n").headD ""

/-- Stage two of generate_posts_stream. -/
def researchStage (o : Oracle) (field addCtx topics : String) :
    List Event × List Call × Except String String :=
  let evs : List Event :=
    Event.stage "research" "Conducting deep research on trending topics..." ::
      researchProgressEvents field ++ [.progress "Compiling research report..."]
  let calls : List Call :=
    (researchQueries field).map Call.search ++
      [.llm "research" [researchTopic field topics, field, researchLLMCtx o field addCtx]]
  match o.llmResearch (researchTopic field topics) field (researchLLMCtx o field addCtx) with
  | .error e => (evs, calls, .error e)
  | .ok report =>
    (evs ++ [.result "research" "Research report compiled!" (.report report)],
     calls, .ok report)

/-- Stage three of generate_posts_stream: generate, then parse with
LinkedInPostAgent._parse_posts. -/
def generationStage (o : Oracle) (field report : String) :
    List Event × List Call × Except String String :=
  let evs : List Event :=
    [.stage "generation" "Crafting LinkedIn post options...",
     .progress "Generating 3 unique post variations..."]
  let calls : List Call := [.llm "generation" [report, field]]
  match o.llmGeneration report field with
  | .error e => (evs, calls, .error e)
  | .ok posts =>
    (evs ++ [.result "generation" "LinkedIn posts generated!"
        (.gen (LinkedInPostAgent.parsePosts posts.data) posts)],
     calls, .ok posts)

/-- LinkedInPostAgent.generate_posts_stream.  The whole staged body sits
in one try block; the first raised error aborts the remainder and is
converted to a single terminal error event.  With no credential the
stream short-circuits before the first stage. -/
def generatePostsStream (hasKey : Bool) (o : Oracle) (field addCtx : String) :
    List Event × List Call :=
  if !hasKey then
    ([.error "GOOGLE_API_KEY not configured. Please set the environment variable."], [])
  else
    let t := trendingStage o field addCtx
    match t.2.2 with
    | .error e => (t.1 ++ [.error ("An error occurred: " ++ e)], t.2.1)
    | .ok topics =>
      let r := researchStage o field addCtx topics
      match r.2.2 with
      | .error e => (t.1 ++ r.1 ++ [.error ("An error occurred: " ++ e)], t.2.1 ++ r.2.1)
      | .ok report =>
        let g := generationStage o field report
        match g.2.2 with
        | .error e =>
          (t.1 ++ r.1 ++ g.1 ++ [.error ("An error occurred: " ++ e)],
           t.2.1 ++ r.2.1 ++ g.2.1)
        | .ok _ =>
          (t.1 ++ r.1 ++ g.1 ++ [.complete "All done! Review your posts below." .empty],
           t.2.1 ++ r.2.1 ++ g.2.1)

/-- Events of one run. -/
def streamEvents (hasKey : Bool) (o : Oracle) (field addCtx : String) : List Event :=
  (generatePostsStream hasKey o field addCtx).1

/-- External calls issued during one run. -/
def streamCalls (hasKey : Bool) (o : Oracle) (field addCtx : String) : List Call :=
  (generatePostsStream hasKey o field addCtx).2

/-- Return shape of get_trending_topics: a list of strings on the
unconfigured path, raw chain text on success, a raised error otherwise. -/
inductive TrendingReturn where
  | strs (l : List String)
  | txt (s : String)
  | raised (e : String)
deriving DecidableEq, Repr

/-- LinkedInPostAgent.get_trending_topics. -/
def getTrendingTopics (hasKey : Bool) (o : Oracle) (field : String) :
    TrendingReturn × List Call :=
  if !hasKey then (.strs ["Configure GOOGLE_API_KEY to get trending topics"], [])
  else
    let q := "trending topics " ++ field ++ " 2024 2025 latest news developments"
    let ctx := "Recent search findings:\n" ++ searchWithGemini true o q
    match o.llmTrending field ctx with
    | .ok r => (.txt r, [.search q, .llm "trending" [field, ctx]])
    | .error e => (.raised e, [.search q, .llm "trending" [field, ctx]])

/-- LinkedInPostAgent.refine_post. -/
def refinePost (hasKey : Bool) (o : Oracle) (postContent feedback : String) :
    Except String String :=
  if !hasKey then .ok "Configure GOOGLE_API_KEY to refine posts"
  else o.llmRefinement postContent feedback

/-- Event classifiers. -/
def Event.isError : Event → Bool
  | .error _ => true
  | _ => false

def Event.isComplete : Event → Bool
  | .complete _ _ => true
  | _ => false

def Event.isStage : Event → Bool
  | .stage _ _ => true
  | _ => false

def Event.isResult : Event → Bool
  | .result _ _ _ => true
  | _ => false

/-- Stage identifier carried by stage and result events. -/
def Event.stageName : Event → Option String
  | .stage s _ => some s
  | .result s _ _ => some s
  | _ => none

/-- The stage in progress at the end of an event sequence: the stage
named by the last stage event. -/
def lastStage (ev : List Event) : Option String :=
  ((ev.filter Event.isStage).getLast?).bind Event.stageName

/-- Whether a result event for the named stage occurs in the sequence. -/
def resultForStage (ev : List Event) (s : String) : Bool :=
  ev.any (fun e => e.isResult && e.stageName == some s)

/-- The wire-visible shape of an event: its type tag and its stage field. -/
def Event.tag : Event → String × Option String
  | .stage s _ => ("stage", some s)
  | .progress _ => ("progress", none)
  | .result s _ _ => ("result", some s)
  | .complete _ _ => ("complete", none)
  | .error _ => ("error", none)

/-- An oracle whose services all answer with fixed strings: the search
call returns s, and the four chains return t, u, v, w. -/
def mkFixedOracle (s t u v w : String) : Oracle :=
  ⟨fun _ => .ok s, fun _ _ => .ok t, fun _ _ _ => .ok u,
   fun _ _ => .ok v, fun _ _ => .ok w⟩

/-- An oracle whose grounded search call raises with the given message
and whose chains return fixed text. -/
def mkFailingSearchOracle (e : String) : Oracle :=
  ⟨fun _ => .error e, fun _ _ => .ok "", fun _ _ _ => .ok "",
   fun _ _ => .ok "", fun _ _ => .ok ""⟩

/-! Prompt loader model (utils/prompt_loader.py).  The loaded YAML
document is a top-level mapping from names to values; a value is either
a nested mapping or a scalar. -/

/-- A YAML value as far as the loader inspects it. -/
inductive YamlVal where
  | scalar (s : String)
  | mapping (entries : List (String × YamlVal))

/-- Key membership in a mapping's entry list. -/
def yamlHasKey (entries : List (String × YamlVal)) (k : String) : Bool :=
  entries.any (fun p => p.1 == k)

/-- Dictionary lookup on the top-level document. -/
def lookupKey (doc : List (String × YamlVal)) (k : String) : Option YamlVal :=
  (doc.find? (fun p => p.1 == k)).map (fun p => p.2)

/-- PromptLoader.list_prompts: top-level names whose values are mappings
containing a system key. -/
def listPrompts (doc : List (String × YamlVal)) : List String :=
  (doc.filter (fun p =>
    match p.2 with
    | .mapping m => yamlHasKey m "system"
    | _ => false)).map (fun p => p.1)

/-- PromptLoader.get_prompt: raises KeyError when the name is absent,
otherwise returns the raw value whatever its shape. -/
def getPrompt (doc : List (String × YamlVal)) (name : String) : Except String YamlVal :=
  match lookupKey doc name with
  | some v => .ok v
  | none => .error ("Prompt " ++ name ++ " not found")

/-- Success test for the loader's fallible lookup. -/
def isOkE {ε α : Type} : Except ε α → Bool
  | .ok _ => true
  | .error _ => false

/-- A document holding one scalar-valued top-level name, witnessing that
get_prompt can succeed on a name that list_prompts omits. -/
def demoDoc : List (String × YamlVal) := [("plain", .scalar "x")]

/-! Structural lemmas about trimming and the regex split, feeding the
parser invariants. -/

theorem dropWhile_head_false {p : Char → Bool} :
    ∀ (l : List Char) {x xs}, l.dropWhile p = x :: xs → p x = false := by
  intro l
  induction l with
  | nil => intro x xs h; simp [List.dropWhile] at h
  | cons c cs ih =>
    intro x xs h
    by_cases hc : p c
    · exact ih (by simpa [List.dropWhile, hc] using h)

    · have : c :: cs = x :: xs := by simpa [List.dropWhile, hc] using h
      cases this
      simpa using hc

theorem dropWhile_append_head :
    ∀ (a rest : List Char), (∀ x xs, rest = x :: xs → isWS x = false) →
    ∃ a2, (a ++ rest).dropWhile isWS = a2 ++ rest := by
  intro a
  induction a with
  | nil =>
    intro rest h
    refine ⟨[], ?_⟩
    cases rest with
    | nil => simp
    | cons x xs => simp [List.dropWhile, h x xs rfl]
  | cons c a' ih =>
    intro rest h
    by_cases hc : isWS c
    · obtain ⟨a2, ha2⟩ := ih rest h
      exact ⟨a2, by simpa [List.dropWhile, hc] using ha2⟩
    · exact ⟨c :: a', by simp [List.dropWhile, hc]⟩

theorem pystrip_isInfix (l : List Char) : List.IsInfix (pystrip l) l := by
  obtain ⟨t2, ht2⟩ := dropWhile_isSuffix isWS l
  obtain ⟨t1, ht1⟩ := dropWhile_isSuffix isWS (trimL l).reverse
  refine ⟨t2, t1.reverse, ?_⟩
  have hr : pystrip l ++ t1.reverse = trimL l := by
    have := congrArg List.reverse ht1
    simpa [pystrip, trimR, List.reverse_append] using this
  calc t2 ++ pystrip l ++ t1.reverse
      = t2 ++ (pystrip l ++ t1.reverse) := by simp [List.append_assoc]
    _ = t2 ++ trimL l := by rw [hr]
    _ = l := ht2

theorem pystrip_head_false {l x xs} (h : pystrip l = x :: xs) : isWS x = false := by
  obtain ⟨t1, ht1⟩ := dropWhile_isSuffix isWS (trimL l).reverse
  have hr : pystrip l ++ t1.reverse = trimL l := by
    have := congrArg List.reverse ht1
    simpa [pystrip, trimR, List.reverse_append] using this
  rw [h] at hr
  exact dropWhile_head_false l (by simpa using hr.symm)

theorem pystrip_rev_head_false {l y ys} (h : (pystrip l).reverse = y :: ys) :
    isWS y = false := by
  have : (trimL l).reverse.dropWhile isWS = y :: ys := by
    simpa [pystrip, trimR] using h
  exact dropWhile_head_false (trimL l).reverse this

theorem strip_length_le_of_infix {u s : List Char} (h : List.IsInfix u s) :
    (pystrip u).length ≤ (pystrip s).length := by
  rcases hv : pystrip u with _ | ⟨x, xs⟩
  · simp
  · have hx : isWS x = false := pystrip_head_false hv
    rcases hrev : (x :: xs).reverse with _ | ⟨y, ys⟩
    · simp at hrev
    · have hy : isWS y = false := pystrip_rev_head_false (l := u) (by rw [hv, hrev])
      have hinf : List.IsInfix (x :: xs) s := hv ▸ (pystrip_isInfix u).trans h
      obtain ⟨a, b, hab⟩ := hinf
      obtain ⟨a2, hA⟩ := dropWhile_append_head a ((x :: xs) ++ b)
        (fun z zs hz => by
          rw [List.cons_append] at hz
          cases hz
          exact hx)
      have hTL : trimL s = a2 ++ ((x :: xs) ++ b) := by
        rw [trimL, ← hab, List.append_assoc]
        exact hA
      have hrearrange : (trimL s).reverse = b.reverse ++ ((y :: ys) ++ a2.reverse) := by
        rw [hTL, ← hrev]
        simp [List.reverse_append]
      obtain ⟨b2, hB⟩ := dropWhile_append_head b.reverse ((y :: ys) ++ a2.reverse)
        (fun z zs hz => by
          rw [List.cons_append] at hz
          cases hz
          exact hy)
      have hS : pystrip s = (b2 ++ ((y :: ys) ++ a2.reverse)).reverse := by
        rw [pystrip, trimR, hrearrange, hB]
      have hgoal : ys.length + 1 ≤ (pystrip s).length := by
        rw [hS]
        simp only [List.length_reverse, List.length_append, List.length_cons]
        omega
      have hlenrev : xs.length = ys.length := by
        have hc := congrArg List.length hrev
        simp only [List.length_reverse, List.length_cons] at hc
        omega
      simp only [List.length_cons]
      omega

theorem splitAux_isInfix :
    ∀ (fuel : Nat) (l acc : List Char), ∀ seg ∈ splitAux fuel l acc,
      List.IsInfix seg (acc.reverse ++ l) := by
  intro fuel
  induction fuel with
  | zero =>
    intro l acc seg hseg
    simp only [splitAux, List.mem_singleton] at hseg
    exact hseg ▸ ⟨[], [], by simp⟩
  | succ f ih =>
    intro l acc seg hseg
    rcases hm : matchMarker l with _ | rest
    · cases l with
      | nil =>
        simp only [splitAux, hm, List.mem_singleton] at hseg
        exact hseg ▸ ⟨[], [], by simp⟩
      | cons c cs =>
        simp only [splitAux, hm] at hseg
        have hir := ih cs (c :: acc) seg hseg
        simpa [List.append_assoc] using hir
    · simp only [splitAux, hm] at hseg
      rcases List.mem_cons.mp hseg with rfl | hseg
      · exact ⟨[], l, by simp⟩
      · have hir := ih rest [] seg hseg
        simp only [List.reverse_nil, List.nil_append] at hir
        obtain ⟨s1, t1, h1⟩ := hir
        obtain ⟨t0, ht0⟩ := matchMarker_isSuffix l rest hm
        refine ⟨acc.reverse ++ t0 ++ s1, t1, ?_⟩
        simp only [List.append_assoc] at h1 ⊢
        rw [h1, ht0]

theorem splitMarkers_isInfix {l seg : List Char} (h : seg ∈ splitMarkers l) :
    List.IsInfix seg l := by
  have := splitAux_isInfix (l.length + 1) l [] seg h
  simpa using this

/-- Every segment of the regex split trims to at most as many characters
as the whole raw text trims to. -/
theorem splitMarkers_strip_le {l seg : List Char} (h : seg ∈ splitMarkers l) :
    (pystrip seg).length ≤ (pystrip l).length :=
  strip_length_le_of_infix (splitMarkers_isInfix h)

/-! Invariants of the two parsing loops. -/

theorem parseLoop_inv :
    ∀ (segs : List (List Char)) (posts : List ParsedPost),
    posts.map ParsedPost.id = List.range' 1 posts.length →
    posts.map ParsedPost.style = (List.range posts.length).map PostParser.getStyleForIndex →
    (∀ p ∈ posts, minPostLength ≤ p.content.length) →
    posts.length < maxPosts →
    (PostParser.parseLoop segs posts).map ParsedPost.id =
        List.range' 1 (PostParser.parseLoop segs posts).length ∧
      (PostParser.parseLoop segs posts).map ParsedPost.style =
        (List.range (PostParser.parseLoop segs posts).length).map PostParser.getStyleForIndex ∧
      (∀ p ∈ PostParser.parseLoop segs posts, minPostLength ≤ p.content.length) ∧
      (PostParser.parseLoop segs posts).length ≤ maxPosts := by
  intro segs
  induction segs with
  | nil =>
    intro posts h1 h2 h3 h4
    exact ⟨h1, h2, h3, Nat.le_of_lt h4⟩
  | cons seg rest ih =>
    intro posts h1 h2 h3 h4
    by_cases hc : pystrip seg = [] ∨ (pystrip seg).length < minPostLength
    · simpa [PostParser.parseLoop, hc] using ih posts h1 h2 h3 h4
    · push_neg at hc
      have hlen : minPostLength ≤ (pystrip seg).length := hc.2
      have hid2 : (posts ++ [(⟨posts.length + 1, PostParser.getStyleForIndex posts.length,
          pystrip seg⟩ : ParsedPost)]).map ParsedPost.id =
          List.range' 1 (posts ++ [(⟨posts.length + 1,
            PostParser.getStyleForIndex posts.length, pystrip seg⟩ : ParsedPost)]).length := by
        simp [List.map_append, h1, List.range'_concat, Nat.add_comm]
      have hst2 : (posts ++ [(⟨posts.length + 1, PostParser.getStyleForIndex posts.length,
          pystrip seg⟩ : ParsedPost)]).map ParsedPost.style =
          (List.range (posts ++ [(⟨posts.length + 1,
            PostParser.getStyleForIndex posts.length, pystrip seg⟩ : ParsedPost)]).length).map
            PostParser.getStyleForIndex := by
        simp [List.map_append, h2, List.range_succ]
      have hco2 : ∀ p ∈ posts ++ [(⟨posts.length + 1,
          PostParser.getStyleForIndex posts.length, pystrip seg⟩ : ParsedPost)],
          minPostLength ≤ p.content.length := by
        intro p hp
        rcases List.mem_append.mp hp with hp | hp
        · exact h3 p hp
        · rcases List.mem_singleton.mp hp with rfl
          exact hlen
      have hcneg : ¬ (pystrip seg = [] ∨ (pystrip seg).length < minPostLength) := by
        push_neg
        exact hc
      by_cases hm : maxPosts ≤ (posts ++ [(⟨posts.length + 1,
          PostParser.getStyleForIndex posts.length, pystrip seg⟩ : ParsedPost)]).length
      · have heq : PostParser.parseLoop (seg :: rest) posts = posts ++
            [(⟨posts.length + 1, PostParser.getStyleForIndex posts.length,
              pystrip seg⟩ : ParsedPost)] := by
          simp only [PostParser.parseLoop]
          rw [if_neg hcneg, if_pos hm]
        rw [heq]
        refine ⟨hid2, hst2, hco2, ?_⟩
        simp only [List.length_append, List.length_cons, List.length_nil] at hm ⊢
        simp only [maxPosts] at h4 hm ⊢
        omega
      · have heq : PostParser.parseLoop (seg :: rest) posts = PostParser.parseLoop rest
            (posts ++ [(⟨posts.length + 1, PostParser.getStyleForIndex posts.length,
              pystrip seg⟩ : ParsedPost)]) := by
          simp only [PostParser.parseLoop]
          rw [if_neg hcneg, if_neg hm]
        rw [heq]
        exact ih _ hid2 hst2 hco2 (Nat.lt_of_not_le hm)

theorem parseLoop_skip_all :
    ∀ (segs : List (List Char)) (posts : List ParsedPost),
    (∀ seg ∈ segs, (pystrip seg).length < minPostLength) →
    PostParser.parseLoop segs posts = posts := by
  intro segs
  induction segs with
  | nil => intro posts _; rfl
  | cons seg rest ih =>
    intro posts h
    have hseg := h seg (by simp)
    simp only [PostParser.parseLoop]
    rw [if_pos (Or.inr hseg)]
    exact ih posts (fun s hs => h s (List.mem_cons_of_mem _ hs))

theorem fallbackParse_style {rawPosts : List Char} {p : ParsedPost}
    (h : p ∈ PostParser.fallbackParse rawPosts) : p.style = "Generated" := by
  simp only [PostParser.fallbackParse] at h
  split at h
  · simp at h
  · rcases List.mem_singleton.mp h with rfl
    rfl

theorem agentLoop_content :
    ∀ (segs : List (List Char)) (i : Nat) (posts : List ParsedPost),
    ∀ p ∈ LinkedInPostAgent.agentLoop i segs posts,
      p ∈ posts ∨ 50 < p.content.length := by
  intro segs
  induction segs with
  | nil => intro i posts p hp; exact Or.inl hp
  | cons seg rest ih =>
    intro i posts p hp
    by_cases hc : pystrip seg ≠ [] ∧ 50 < (pystrip seg).length
    · simp only [LinkedInPostAgent.agentLoop, if_pos hc] at hp
      rcases ih (i + 1) _ p hp with hmem | hlen
      · rcases List.mem_append.mp hmem with hmem | hmem
        · exact Or.inl hmem
        · rcases List.mem_singleton.mp hmem with rfl
          exact Or.inr hc.2
      · exact Or.inr hlen
    · simp only [LinkedInPostAgent.agentLoop, if_neg hc] at hp
      exact ih (i + 1) posts p hp

theorem agentLoop_skip_all :
    ∀ (segs : List (List Char)) (i : Nat) (posts : List ParsedPost),
    (∀ seg ∈ segs, ¬ 50 < (pystrip seg).length) →
    LinkedInPostAgent.agentLoop i segs posts = posts := by
  intro segs
  induction segs with
  | nil => intro i posts _; rfl
  | cons seg rest ih =>
    intro i posts h
    have hseg := h seg (by simp)
    simp only [LinkedInPostAgent.agentLoop]
    rw [if_neg (by intro hcon; exact hseg hcon.2)]
    exact ih (i + 1) posts (fun s hs => h s (List.mem_cons_of_mem _ hs))

/-- _parse_posts always yields between one and three posts: the fallback
guarantees non-emptiness and the final slice bounds the length. -/
theorem parsePosts_length (rawPosts : List Char) :
    1 ≤ (LinkedInPostAgent.parsePosts rawPosts).length ∧
      (LinkedInPostAgent.parsePosts rawPosts).length ≤ 3 := by
  simp only [LinkedInPostAgent.parsePosts]
  set posts := LinkedInPostAgent.agentLoop 0 (splitMarkers rawPosts) [] with hposts
  by_cases hp : posts = []
  · rw [if_pos hp]
    simp
  · rw [if_neg hp]
    constructor
    · have : posts.length ≠ 0 := fun hz => hp (List.eq_nil_of_length_eq_zero hz)
      simp only [List.length_take]
      omega
    · simp only [List.length_take]
      omega

theorem fallbackParse_props (raw : List Char) :
    (PostParser.fallbackParse raw).length ≤ maxPosts ∧
      (PostParser.fallbackParse raw).map ParsedPost.id =
        List.range' 1 (PostParser.fallbackParse raw).length := by
  simp only [PostParser.fallbackParse]
  split
  · simp
  · refine ⟨by simp [maxPosts], ?_⟩
    simp [List.range']

/-! Concrete inputs exercising the parsers. -/

/-- A dashed banner followed by one sixty-character segment. -/
def exMarkerShort : List Char := "--- POST 1 ---\n".data ++ List.replicate 60 'A'

/-- Two dashed banners, each followed by a sixty-character segment: the
worked example of the specification. -/
def exTwoPosts : List Char :=
  "--- POST 1 ---\n".data ++ List.replicate 60 'A' ++
    "\n--- POST 2 ---\n".data ++ List.replicate 60 'B'

/-- Claim C1, counterexample: on a banner-led input the id of the single
post returned by LinkedInPostAgent._parse_posts is the split-segment
index plus one, here 2, so the ids are not the dense sequence starting
at 1 that the claim asserts for both parsers. -/
theorem claim1_counterexample :
    ¬ ((LinkedInPostAgent.parsePosts exMarkerShort).map ParsedPost.id =
      List.range' 1 (LinkedInPostAgent.parsePosts exMarkerShort).length) := by
  decide

/-- Claim C1, amended: for every input, PostParser.parse returns at most
max_posts posts, with ids exactly 1..len dense and 1-based, and every
non-fallback post (fallback posts are exactly those styled Generated) at
least min_post_length long; LinkedInPostAgent._parse_posts satisfies the
length bound and the content bound, but its ids are split-segment
indices plus one and need not be dense. -/
theorem claim1_amended_invariants (raw : List Char) :
    (PostParser.parse raw).length ≤ maxPosts ∧
    (PostParser.parse raw).map ParsedPost.id =
      List.range' 1 (PostParser.parse raw).length ∧
    (∀ p ∈ PostParser.parse raw, p.style ≠ "Generated" →
      minPostLength ≤ p.content.length) ∧
    (LinkedInPostAgent.parsePosts raw).length ≤ maxPosts ∧
    (∀ p ∈ LinkedInPostAgent.parsePosts raw, p.style ≠ "Generated" →
      minPostLength ≤ p.content.length) := by
  have hpp : (PostParser.parse raw).length ≤ maxPosts ∧
      (PostParser.parse raw).map ParsedPost.id =
        List.range' 1 (PostParser.parse raw).length ∧
      (∀ p ∈ PostParser.parse raw, p.style ≠ "Generated" →
        minPostLength ≤ p.content.length) := by
    by_cases h0 : raw = [] ∨ pystrip raw = []
    · have hr : PostParser.parse raw = PostParser.fallbackParse raw := by
        simp only [PostParser.parse]
        rw [if_pos h0]
      rw [hr]
      have hfp := fallbackParse_props raw
      exact ⟨hfp.1, hfp.2, fun p hp hst => absurd (fallbackParse_style hp) hst⟩
    · by_cases hl : PostParser.parseLoop (splitMarkers raw) [] = []
      · have hr : PostParser.parse raw = PostParser.fallbackParse raw := by
          simp only [PostParser.parse]
          rw [if_neg h0, if_pos hl]
        rw [hr]
        have hfp := fallbackParse_props raw
        exact ⟨hfp.1, hfp.2, fun p hp hst => absurd (fallbackParse_style hp) hst⟩
      · have hr : PostParser.parse raw = PostParser.parseLoop (splitMarkers raw) [] := by
          simp only [PostParser.parse]
          rw [if_neg h0, if_neg hl]
        rw [hr]
        have hinv := parseLoop_inv (splitMarkers raw) [] (by simp) (by simp)
          (by simp) (by simp [maxPosts])
        exact ⟨hinv.2.2.2, hinv.1, fun p hp _ => hinv.2.2.1 p hp⟩
  have hag : ∀ p ∈ LinkedInPostAgent.parsePosts raw, p.style ≠ "Generated" →
      minPostLength ≤ p.content.length := by
    intro p hp hst
    have hp2 : p ∈ (if LinkedInPostAgent.agentLoop 0 (splitMarkers raw) [] = [] then
        [(⟨1, "Generated", pystrip raw⟩ : ParsedPost)]
      else LinkedInPostAgent.agentLoop 0 (splitMarkers raw) []) := by
      simp only [LinkedInPostAgent.parsePosts] at hp
      exact List.take_subset _ _ hp
    by_cases hl : LinkedInPostAgent.agentLoop 0 (splitMarkers raw) [] = []
    · rw [if_pos hl] at hp2
      rcases List.mem_singleton.mp hp2 with rfl
      exact absurd rfl hst
    · rw [if_neg hl] at hp2
      rcases agentLoop_content _ 0 [] p hp2 with hmem | hlen
      · simp at hmem
      · simp only [minPostLength]
        omega
  exact ⟨hpp.1, hpp.2.1, hpp.2.2, (parsePosts_length raw).2, hag⟩

/-- Claim C1, witness: the amended invariants evaluated on the
banner-led concrete input. -/
theorem claim1_amended_invariants_witness :
    (PostParser.parse exMarkerShort).length ≤ maxPosts ∧
      (PostParser.parse exMarkerShort).map ParsedPost.id =
        List.range' 1 (PostParser.parse exMarkerShort).length :=
  ⟨(claim1_amended_invariants exMarkerShort).1,
   (claim1_amended_invariants exMarkerShort).2.1⟩

/-- Claim C4, counterexample: on the empty string _parse_posts fires the
single-post fallback and returns one Generated post with empty content,
not the empty sequence the claim asserts for both parsers. -/
theorem claim4_counterexample :
    LinkedInPostAgent.parsePosts [] ≠ [] ∧
      LinkedInPostAgent.parsePosts [] = [⟨1, "Generated", []⟩] := by
  constructor
  · decide
  · decide

/-- Claim C4, amended: on empty or whitespace-only input,
PostParser.parse returns the empty sequence, while
LinkedInPostAgent._parse_posts returns exactly one fallback post with id
1, style Generated and empty content. -/
theorem claim4_amended_empty_input (raw : List Char) (h : pystrip raw = []) :
    PostParser.parse raw = [] ∧
      LinkedInPostAgent.parsePosts raw = [⟨1, "Generated", []⟩] := by
  constructor
  · simp only [PostParser.parse]
    rw [if_pos (Or.inr h)]
    simp [PostParser.fallbackParse, h]
  · have hall : ∀ seg ∈ splitMarkers raw, ¬ 50 < (pystrip seg).length := by
      intro seg hs hlt
      have hle := splitMarkers_strip_le hs
      rw [h] at hle
      have hz : (pystrip seg).length ≤ 0 := by simpa using hle
      omega
    simp only [LinkedInPostAgent.parsePosts]
    rw [agentLoop_skip_all _ 0 [] hall]
    simp [h]

/-- Claim C4, witness: the amended statement evaluated on a
whitespace-only input. -/
theorem claim4_amended_empty_input_witness :
    PostParser.parse " ".data = [] ∧
      LinkedInPostAgent.parsePosts " ".data = [⟨1, "Generated", []⟩] :=
  claim4_amended_empty_input " ".data (by decide)

/-- Claim C5, counterexample: on the two-banner worked example,
_parse_posts assigns styles by split-segment index, yielding Data-Driven
then Thought Leadership instead of the claimed Storytelling then
Data-Driven. -/
theorem claim5_counterexample :
    (LinkedInPostAgent.parsePosts exTwoPosts).map ParsedPost.style ≠
      ["Storytelling", "Data-Driven"] := by
  decide

/-- Claim C5, amended: style assignment is positional over accepted
posts for PostParser.parse (position j gets the j-th configured style,
positions beyond the style list get a synthesized Variation label), and
on the two-banner worked example PostParser.parse returns the claimed
two posts, whereas LinkedInPostAgent._parse_posts keys styles by
split-segment index and returns Data-Driven and Thought Leadership with
ids 2 and 3. -/
theorem claim5_amended_styles (raw : List Char)
    (h : PostParser.parse raw ≠ PostParser.fallbackParse raw) :
    (PostParser.parse raw).map ParsedPost.style =
      (List.range (PostParser.parse raw).length).map PostParser.getStyleForIndex ∧
    (∀ n, postStyles.length ≤ n → PostParser.getStyleForIndex n =
      "Variation " ++ toString (n + 1)) ∧
    PostParser.parse exTwoPosts =
      [⟨1, "Storytelling", List.replicate 60 'A'⟩,
       ⟨2, "Data-Driven", List.replicate 60 'B'⟩] ∧
    LinkedInPostAgent.parsePosts exTwoPosts =
      [⟨2, "Data-Driven", List.replicate 60 'A'⟩,
       ⟨3, "Thought Leadership", List.replicate 60 'B'⟩] := by
  refine ⟨?_, ?_, by decide, by decide⟩
  · by_cases h0 : raw = [] ∨ pystrip raw = []
    · exact absurd (by simp only [PostParser.parse]; rw [if_pos h0]) h
    · by_cases hl : PostParser.parseLoop (splitMarkers raw) [] = []
      · exact absurd (by simp only [PostParser.parse]; rw [if_neg h0, if_pos hl]) h
      · have hr : PostParser.parse raw = PostParser.parseLoop (splitMarkers raw) [] := by
          simp only [PostParser.parse]
          rw [if_neg h0, if_neg hl]
        rw [hr]
        exact (parseLoop_inv (splitMarkers raw) [] (by simp) (by simp)
          (by simp) (by simp [maxPosts])).2.1
  · intro n hn
    simp only [PostParser.getStyleForIndex]
    rw [dif_neg (by omega)]

/-- Claim C5, witness: the positional-style law evaluated on the
two-banner concrete input, whose parse result is not the fallback. -/
theorem claim5_amended_styles_witness :
    (PostParser.parse exTwoPosts).map ParsedPost.style =
      (List.range (PostParser.parse exTwoPosts).length).map PostParser.getStyleForIndex :=
  (claim5_amended_styles exTwoPosts (by decide)).1

/-- Claim C6: a non-empty input whose trimmed length is positive but
below min_post_length makes every split segment under-length, so both
parsers fire the single-post fallback and return exactly one post with
id 1, style Generated and the trimmed input as content. -/
theorem claim6_short_input_fallback (raw : List Char)
    (h1 : pystrip raw ≠ []) (h2 : (pystrip raw).length < minPostLength) :
    PostParser.parse raw = [⟨1, "Generated", pystrip raw⟩] ∧
      LinkedInPostAgent.parsePosts raw = [⟨1, "Generated", pystrip raw⟩] := by
  have hraw : raw ≠ [] := by
    intro hr
    exact h1 (by rw [hr]; rfl)
  constructor
  · have hall : ∀ seg ∈ splitMarkers raw, (pystrip seg).length < minPostLength :=
      fun seg hs => lt_of_le_of_lt (splitMarkers_strip_le hs) h2
    simp only [PostParser.parse]
    rw [if_neg (by push_neg; exact ⟨hraw, h1⟩), parseLoop_skip_all _ [] hall,
      if_pos rfl]
    simp [PostParser.fallbackParse, h1]
  · have hall : ∀ seg ∈ splitMarkers raw, ¬ 50 < (pystrip seg).length := by
      intro seg hs hlt
      have hle := splitMarkers_strip_le hs
      simp only [minPostLength] at h2
      omega
    simp only [LinkedInPostAgent.parsePosts]
    rw [agentLoop_skip_all _ 0 [] hall]
    simp

/-- Claim C6, witness: the fallback evaluated on a five-character blob. -/
theorem claim6_short_input_fallback_witness :
    PostParser.parse "short".data = [⟨1, "Generated", pystrip "short".data⟩] ∧
      LinkedInPostAgent.parsePosts "short".data =
        [⟨1, "Generated", pystrip "short".data⟩] :=
  claim6_short_input_fallback "short".data (by decide) (by decide)

/-- Claim C9: the marker-stripping loop at the top of _parse_posts never
affects the returned value, because the regex split is applied to the
original raw input and the loop's result is never read, so _parse_posts
coincides with its simplified form on every input. -/
theorem claim9_marker_loop_dead (raw : List Char) :
    LinkedInPostAgent.parsePosts raw = LinkedInPostAgent.parsePostsSimple raw := rfl

/-! Orchestrator claims. -/

/-- An oracle with a prescribed grounded-search outcome and successful
chains, used to exercise _search_with_gemini in isolation. -/
def mkGenOracle (g : String → Except String String) : Oracle :=
  ⟨g, fun _ _ => .ok "", fun _ _ _ => .ok "", fun _ _ => .ok "", fun _ _ => .ok ""⟩

/-- Claim C7: the search operation is a total function to strings: a
raised error is converted into a placeholder embedding its description,
and without a configured client a fixed placeholder is returned without
consulting the underlying call at all. -/
theorem claim7_search_total (q err t : String) (g g2 : String → Except String String) :
    searchWithGemini true (mkGenOracle (fun _ => Except.error err)) q =
      "Search completed with limited results: " ++ err ∧
    searchWithGemini true (mkGenOracle (fun _ => Except.ok t)) q = t ∧
    searchWithGemini false (mkGenOracle g) q =
      "API key not configured. Unable to perform web search." ∧
    searchWithGemini false (mkGenOracle g) q = searchWithGemini false (mkGenOracle g2) q :=
  ⟨rfl, rfl, rfl, rfl⟩

/-- Claim C8: with no credential the stream emits exactly one error
event and issues no external calls, refine_post returns the fixed
reminder text, and get_trending_topics returns the fixed reminder
wrapped in a one-element list, with no external calls in either case. -/
theorem claim8_no_credential (o : Oracle) (field addCtx postContent feedback : String) :
    generatePostsStream false o field addCtx =
      ([.error "GOOGLE_API_KEY not configured. Please set the environment variable."], []) ∧
    refinePost false o postContent feedback =
      Except.ok "Configure GOOGLE_API_KEY to refine posts" ∧
    getTrendingTopics false o field =
      (.strs ["Configure GOOGLE_API_KEY to get trending topics"], []) :=
  ⟨rfl, rfl, rfl⟩

/-- Claim C3: with all external services returning fixed strings, one
run emits exactly the claimed event shapes in order with no error event,
the research stage issues exactly the three configured search calls in
declaration order followed by the report chain call whose context embeds
the three results joined by blank lines, and the generation payload
holds between one and three parsed posts. -/
theorem claim3_fixed_oracle_run (s t u v w field addCtx : String) :
    (streamEvents true (mkFixedOracle s t u v w) field addCtx).map Event.tag =
      [("stage", some "trending"), ("progress", none), ("progress", none),
       ("result", some "trending"),
       ("stage", some "research"), ("progress", none), ("progress", none),
       ("progress", none), ("progress", none), ("result", some "research"),
       ("stage", some "generation"), ("progress", none), ("result", some "generation"),
       ("complete", none)] ∧
    (streamEvents true (mkFixedOracle s t u v w) field addCtx).countP Event.isError = 0 ∧
    (researchStage (mkFixedOracle s t u v w) field addCtx t).2.1 =
      [Call.search (field ++ " industry trends statistics 2024 2025"),
       Call.search (field ++ " expert opinions thought leadership"),
       Call.search (field ++ " case studies success stories"),
       Call.llm "research" [researchTopic field t, field,
         addCtx ++ "\n\nResearch findings:\n" ++ String.intercalate "\n\n" [s, s, s]]] ∧
    1 ≤ (LinkedInPostAgent.parsePosts v.data).length ∧
    (LinkedInPostAgent.parsePosts v.data).length ≤ 3 :=
  ⟨rfl, rfl, rfl, (parsePosts_length v.data).1, (parsePosts_length v.data).2⟩

/-- The terminal-event contract of one run: the stream is non-empty and
ends in a complete or error event; at most one error is emitted and only
as the final event; after an error there is no complete event and no
result event for the stage that was in progress. -/
def C2Props (ev : List Event) : Prop :=
  ev ≠ [] ∧
  (∀ e, ev.getLast? = some e → e.isComplete = true ∨ e.isError = true) ∧
  ev.countP Event.isError ≤ 1 ∧
  (∀ e ∈ ev, e.isError = true → ev.getLast? = some e) ∧
  (∀ e, ev.getLast? = some e → e.isError = true → ∀ e2 ∈ ev, e2.isComplete = false) ∧
  (∀ e stg, ev.getLast? = some e → e.isError = true → lastStage ev = some stg →
    resultForStage ev stg = false)

/-- Claim C2: every run, whatever the outcomes of the external calls,
satisfies the terminal-event contract: the emitted sequence ends in a
complete or error event, a failure produces exactly one error event as
the final event, the remaining pipeline is aborted, and no result event
is emitted for the stage that was in progress. -/
theorem claim2_terminal_events (hasKey : Bool) (o : Oracle) (field addCtx : String) :
    C2Props (streamEvents hasKey o field addCtx) := by
  cases hasKey with
  | false =>
    have hev : streamEvents false o field addCtx =
        [.error "GOOGLE_API_KEY not configured. Please set the environment variable."] := rfl
    rw [hev]
    simp [C2Props, Event.isError, Event.isComplete, Event.isStage, Event.isResult,
      Event.stageName, lastStage, resultForStage, List.countP_cons, List.filter]
  | true =>
    rcases h1 : o.llmTrending field (trendingLLMCtx o field addCtx) with e1 | t1
    · simp only [streamEvents, generatePostsStream, trendingStage, h1, Bool.not_true,
        if_false, Bool.false_eq_true]
      simp [C2Props, Event.isError, Event.isComplete, Event.isStage, Event.isResult,
        Event.stageName, lastStage, resultForStage, List.countP_cons, List.filter]
    · rcases h2 : o.llmResearch (researchTopic field t1) field (researchLLMCtx o field addCtx)
        with e2 | r2
      · simp only [streamEvents, generatePostsStream, trendingStage, researchStage, h1, h2]
        simp [C2Props, Event.isError, Event.isComplete, Event.isStage, Event.isResult,
          Event.stageName, lastStage, resultForStage, List.countP_cons, List.filter,
          researchProgressEvents, researchQueries, List.enum, List.enumFrom]
      · rcases h3 : o.llmGeneration r2 field with e3 | g3
        · simp only [streamEvents, generatePostsStream, trendingStage, researchStage,
            generationStage, h1, h2, h3]
          simp [C2Props, Event.isError, Event.isComplete, Event.isStage, Event.isResult,
            Event.stageName, lastStage, resultForStage, List.countP_cons, List.filter,
            researchProgressEvents, researchQueries, List.enum, List.enumFrom]
        · simp only [streamEvents, generatePostsStream, trendingStage, researchStage,
            generationStage, h1, h2, h3]
          simp [C2Props, Event.isError, Event.isComplete, Event.isStage, Event.isResult,
            Event.stageName, lastStage, resultForStage, List.countP_cons, List.filter,
            researchProgressEvents, researchQueries, List.enum, List.enumFrom]

/-- Claim C2, witness: the terminal-event contract evaluated on a run
with fixed successful services. -/
theorem claim2_terminal_events_witness :
    C2Props (streamEvents true (mkFixedOracle "sr" "topics" "report" "posts" "ref")
      "Healthcare" "") :=
  claim2_terminal_events true (mkFixedOracle "sr" "topics" "report" "posts" "ref")
    "Healthcare" ""

/-! Prompt loader claims. -/

theorem listPrompts_subset (doc : List (String × YamlVal)) :
    ∀ x ∈ listPrompts doc, x ∈ doc.map Prod.fst := by
  intro x hx
  simp only [listPrompts] at hx
  obtain ⟨p, hp, rfl⟩ := List.mem_map.mp hx
  exact List.mem_map_of_mem _ (List.mem_of_mem_filter hp)

theorem mem_listPrompts : ∀ (doc : List (String × YamlVal)) (name : String),
    (doc.map Prod.fst).Nodup →
    (name ∈ listPrompts doc ↔ ∃ m, lookupKey doc name = some (YamlVal.mapping m) ∧
      yamlHasKey m "system" = true) := by
  intro doc
  induction doc with
  | nil => intro name _; simp [listPrompts, lookupKey]
  | cons p rest ih =>
    intro name hnd
    obtain ⟨k, v⟩ := p
    rw [List.map_cons, List.nodup_cons] at hnd
    by_cases hk : k = name
    · subst hk
      rcases v with s | m
      · constructor
        · intro hmem
          have hmem2 : k ∈ listPrompts rest := by
            simpa [listPrompts, List.filter_cons] using hmem
          exact absurd (listPrompts_subset rest k hmem2) hnd.1
        · rintro ⟨m, hm, -⟩
          simp [lookupKey, List.find?] at hm
      · by_cases hsys : yamlHasKey m "system" = true
        · constructor
          · intro _
            exact ⟨m, by simp [lookupKey, List.find?], hsys⟩
          · intro _
            simp [listPrompts, List.filter_cons, hsys]
        · constructor
          · intro hmem
            have hmem2 : k ∈ listPrompts rest := by
              simpa [listPrompts, List.filter_cons, hsys] using hmem
            exact absurd (listPrompts_subset rest k hmem2) hnd.1
          · rintro ⟨m2, hm2, hsys2⟩
            simp [lookupKey, List.find?] at hm2
            subst hm2
            exact absurd hsys2 hsys
    · have step1 : (name ∈ listPrompts ((k, v) :: rest)) ↔ name ∈ listPrompts rest := by
        rcases v with s | m
        · simp [listPrompts, List.filter_cons]
        · by_cases hsys : yamlHasKey m "system" = true
          · simp [listPrompts, List.filter_cons, hsys, Ne.symm hk]
          · simp [listPrompts, List.filter_cons, hsys]
      have hbeq : (k == name) = false := by simp [hk]
      have step2 : lookupKey ((k, v) :: rest) name = lookupKey rest name := by
        simp [lookupKey, List.find?, hbeq]
      rw [step1, step2]
      exact ih name hnd.2

theorem getPrompt_ok : ∀ (doc : List (String × YamlVal)) (name : String),
    isOkE (getPrompt doc name) = true ↔ name ∈ doc.map Prod.fst := by
  intro doc
  induction doc with
  | nil => intro name; simp [getPrompt, lookupKey, isOkE]
  | cons p rest ih =>
    intro name
    obtain ⟨k, v⟩ := p
    by_cases hk : k = name
    · subst hk
      simp [getPrompt, lookupKey, List.find?, isOkE]
    · have hbeq : (k == name) = false := by simp [hk]
      have step2 : lookupKey ((k, v) :: rest) name = lookupKey rest name := by
        simp [lookupKey, List.find?, hbeq]
      have hok : isOkE (getPrompt ((k, v) :: rest) name) = isOkE (getPrompt rest name) := by
        simp [getPrompt, step2]
      rw [hok]
      simp [Ne.symm hk, ih name]

/-- Claim C10: for every loaded document with distinct top-level names,
list_prompts returns exactly the names whose values are mappings
containing a system key, get_prompt succeeds exactly on the top-level
names, and on the one-scalar demonstration document a name omitted by
list_prompts is still returned by get_prompt without raising. -/
theorem claim10_prompt_listing (doc : List (String × YamlVal)) (name : String)
    (hnd : (doc.map Prod.fst).Nodup) :
    (name ∈ listPrompts doc ↔ ∃ m, lookupKey doc name = some (YamlVal.mapping m) ∧
      yamlHasKey m "system" = true) ∧
    (isOkE (getPrompt doc name) = true ↔ name ∈ doc.map Prod.fst) ∧
    listPrompts demoDoc = [] ∧
    getPrompt demoDoc "plain" = Except.ok (YamlVal.scalar "x") ∧
    "plain" ∈ demoDoc.map Prod.fst :=
  ⟨mem_listPrompts doc name hnd, getPrompt_ok doc name, rfl, rfl, by simp [demoDoc]⟩

/-- Claim C10, witness: the success law of get_prompt evaluated on the
demonstration document. -/
theorem claim10_prompt_listing_witness :
    isOkE (getPrompt demoDoc "plain") = true ↔ "plain" ∈ demoDoc.map Prod.fst :=
  (claim10_prompt_listing demoDoc "plain" (by simp [demoDoc])).2.1

end CampaignAgent
